import Mathlib

/-!
# The shared-memory bridge of `src/main/native/shm.c`

The file has three JNI entry points, each a short sequence of calls into the
System V shared-memory interface of the kernel (`shmget`, `shmat`, `shmdt`,
`shmctl`) and into the JNI function table (`NewByteArray`,
`SetByteArrayRegion`).

The embedding is by explicit state passing.  `World` is everything the three
functions can touch: the kernel's segment table, the attachments of this
process, the Java heap with the pending exception, `errno`, and the sequence of
calls issued so far.  The three entry points are transcribed from the C text;
the JNI arguments `env` and `obj` are the function table and the receiver, and
are carried by the world.

The six callees are not code of the repository.  They are modelled after
their manual pages (`shmget(2)`, `shmat(2)`, `shmdt(2)`, `shmctl(2)`, the JNI
specification) for Linux on an LP64 machine, with these limits:

* one user: a permission check looks at the owner bits of the segment mode;
* the Java heap is unbounded: `NewByteArray` fails on a negative length only;
* a segment is mapped in whole pages, and a read of process memory outside
  every attachment kills the process (`Outcome.sigsegv`);
* the kernel picks identifiers and addresses above those in use.
-/

namespace Shm

/-! ## Constants of the system headers -/

/-- One byte of memory; `jbyte` is the same eight bits. -/
abbrev Byte := Fin 256

/-- Key asking for a segment of its own: `IPC_PRIVATE` of `<sys/ipc.h>`. -/
def IPC_PRIVATE : Int := 0
/-- Flag `IPC_CREAT` of `<sys/ipc.h>`. -/
def IPC_CREAT : Nat := 0o1000
/-- Flag `IPC_EXCL` of `<sys/ipc.h>`. -/
def IPC_EXCL : Nat := 0o2000
/-- Command `IPC_RMID` of `<sys/ipc.h>`. -/
def IPC_RMID : Int := 0
/-- Flag `SHM_RDONLY` of `<sys/shm.h>`. -/
def SHM_RDONLY : Nat := 0o10000
/-- The null pointer. -/
def NULL : Int := 0
/-- Size of a page of memory. -/
def PAGE_SIZE : Nat := 4096
/-- Least size of a segment. -/
def SHMMIN : Nat := 1
/-- Largest size of the object backing a segment (a signed 64-bit offset). -/
def MAX_LFS_FILESIZE : Nat := 2 ^ 63 - 1
/-- Least value of a `jint`. -/
def JINT_MIN : Int := -2 ^ 31
/-- Greatest value of a `jint`. -/
def JINT_MAX : Int := 2 ^ 31 - 1

/-- Error number `ENOENT` of `<errno.h>`. -/
def ENOENT : Nat := 2
/-- Error number `EACCES` of `<errno.h>`. -/
def EACCES : Nat := 13
/-- Error number `EEXIST` of `<errno.h>`. -/
def EEXIST : Nat := 17
/-- Error number `EINVAL` of `<errno.h>`. -/
def EINVAL : Nat := 22

/-- Conversion of a signed integer to `size_t` (64 bits), as C performs it when
`jint size` is passed for the `size_t size` parameter of `shmget`. -/
def toSizeT (n : Int) : Nat := (n % 2 ^ 64).toNat

/-! ## Data model -/

/-- One entry of the kernel's table of shared memory segments. -/
structure Segment where
  /-- Identifier of the segment. -/
  shmid : Int
  /-- Key the segment was created under. -/
  key : Int
  /-- Permission bits, the low nine bits of the creation flags. -/
  mode : Nat
  /-- Size in bytes asked for at creation. -/
  segsz : Nat
  /-- Number of current attachments, over all processes. -/
  nattch : Nat
  /-- Marked for destruction by `IPC_RMID` while still attached. -/
  dest : Bool
  /-- Contents of the pages of the segment, by offset. -/
  mem : Nat → Byte

/-- One attachment of a segment in the address space of this process. -/
structure Mapping where
  addr : Int
  len : Nat
  shmid : Int
  rdonly : Bool

/-- Exceptions the JNI functions used here can leave pending. -/
inductive Throwable where
  | NegativeArraySizeException
  | ArrayIndexOutOfBoundsException
  deriving DecidableEq

/-- A call issued by the code, with its arguments. -/
inductive Call where
  | shmget (key : Int) (size : Nat) (shmflg : Nat)
  | shmat (shmid : Int) (shmaddr : Int) (shmflg : Nat)
  | shmdt (shmaddr : Int)
  | shmctl (shmid : Int) (cmd : Int) (buf : Int)
  | NewByteArray (length : Int)
  | SetByteArrayRegion (array : Option Nat) (start : Int) (len : Int) (buf : Int)
  deriving DecidableEq

/-- Everything the three entry points can read or change. -/
structure World where
  /-- The kernel's segment table. -/
  segs : List Segment
  /-- Attachments of this process, most recent first. -/
  maps : List Mapping
  /-- Java heap: the byte arrays created so far; a `jbyteArray` is an index. -/
  heap : List (List Byte)
  /-- Pending Java exception, thrown in the caller when the native method returns. -/
  exc : Option Throwable
  /-- Error number of the last failed system call. -/
  errno : Nat
  /-- The kernel's per-segment size limit (`kernel.shmmax`). -/
  shmmax : Nat
  /-- Calls issued so far, oldest first. -/
  calls : List Call

/-- How a call ends: it returns a value in a new world, or the process is
killed by `SIGSEGV`. -/
inductive Outcome (α : Type) where
  | ret (val : α) (w : World)
  | sigsegv

/-! ## The kernel: `shmget`, `shmat`, `shmdt`, `shmctl` -/

/-- Segment of the table with the given identifier. -/
def findSeg (segs : List Segment) (id : Int) : Option Segment :=
  segs.find? (fun s => s.shmid = id)

/-- Number of bytes mapped for a segment of `size` bytes: whole pages. -/
def mappedLen (size : Nat) : Nat := (size + PAGE_SIZE - 1) / PAGE_SIZE * PAGE_SIZE

/-- Identifier given to a new segment: one not in use. -/
def freshId (segs : List Segment) : Int :=
  segs.foldr (fun s m => max (s.shmid + 1) m) 0

/-- Address chosen for a new attachment: the first page boundary above every
attachment of the process. -/
def freshAddr (maps : List Mapping) : Int :=
  (((maps.foldr (fun (m : Mapping) (a : Int) => max (m.addr + m.len) a) 0).toNat / PAGE_SIZE + 1)
    * PAGE_SIZE : Nat)

/-- Creation of a segment (the kernel's `newseg`): refused with `EINVAL` when
the size is below `SHMMIN` or above the limits, else a zero-filled segment with
a new identifier is entered in the table. -/
def newseg (w : World) (key : Int) (size : Nat) (shmflg : Nat) : Int × World :=
  if size < SHMMIN ∨ w.shmmax < size ∨ MAX_LFS_FILESIZE < size then
    (-1, { w with errno := EINVAL })
  else
    let id := freshId w.segs
    (id, { w with segs := { shmid := id, key := key, mode := shmflg &&& 0o777, segsz := size,
                            nattch := 0, dest := false, mem := fun _ => 0 } :: w.segs })

/-- System call `shmget(key, size, shmflg)`. -/
def shmget (w : World) (key : Int) (size : Nat) (shmflg : Nat) : Int × World :=
  let w := { w with calls := w.calls ++ [Call.shmget key size shmflg] }
  if key = IPC_PRIVATE then newseg w key size shmflg
  else
    match w.segs.find? (fun s => s.key = key) with
    | none =>
      if shmflg &&& IPC_CREAT ≠ 0 then newseg w key size shmflg
      else (-1, { w with errno := ENOENT })
    | some s =>
      if shmflg &&& IPC_CREAT ≠ 0 ∧ shmflg &&& IPC_EXCL ≠ 0 then (-1, { w with errno := EEXIST })
      else if s.segsz < size then (-1, { w with errno := EINVAL })
      else if s.mode &&& (shmflg &&& 0o600) ≠ shmflg &&& 0o600 then (-1, { w with errno := EACCES })
      else (s.shmid, w)

/-- System call `shmat(shmid, shmaddr, shmflg)`; the result `-1` is `(void *) -1`. -/
def shmat (w : World) (shmid : Int) (shmaddr : Int) (shmflg : Nat) : Int × World :=
  let w := { w with calls := w.calls ++ [Call.shmat shmid shmaddr shmflg] }
  if shmid < 0 then (-1, { w with errno := EINVAL })
  else
    match findSeg w.segs shmid with
    | none => (-1, { w with errno := EINVAL })
    | some s =>
      let need := if shmflg &&& SHM_RDONLY ≠ 0 then 0o400 else 0o600
      if s.mode &&& need ≠ need then (-1, { w with errno := EACCES })
      else if shmaddr ≠ NULL ∧ shmaddr % PAGE_SIZE ≠ 0 then (-1, { w with errno := EINVAL })
      else
        let addr := if shmaddr = NULL then freshAddr w.maps else shmaddr
        (addr, { w with
          maps := { addr := addr, len := mappedLen s.segsz, shmid := shmid,
                    rdonly := decide (shmflg &&& SHM_RDONLY ≠ 0) } :: w.maps
          segs := w.segs.map (fun t =>
            if t.shmid = shmid then { t with nattch := t.nattch + 1 } else t) })

/-- System call `shmdt(shmaddr)`: the attachment at that address is removed,
and a segment marked for destruction goes with its last attachment. -/
def shmdt (w : World) (shmaddr : Int) : Int × World :=
  let w := { w with calls := w.calls ++ [Call.shmdt shmaddr] }
  match w.maps.find? (fun m => m.addr = shmaddr) with
  | none => (-1, { w with errno := EINVAL })
  | some m =>
    (0, { w with
      maps := w.maps.eraseP (fun k => k.addr = shmaddr)
      segs := (w.segs.map (fun t =>
          if t.shmid = m.shmid then { t with nattch := t.nattch - 1 } else t)).filter
        (fun t => !(decide (t.shmid = m.shmid) && decide (t.nattch = 0) && t.dest)) })

/-- System call `shmctl(shmid, cmd, buf)`.  Only `IPC_RMID` is modelled, the one
command the code issues: a segment without attachments is removed at once, an
attached one is marked for destruction and loses its key. -/
def shmctl (w : World) (shmid : Int) (cmd : Int) (buf : Int) : Int × World :=
  let w := { w with calls := w.calls ++ [Call.shmctl shmid cmd buf] }
  if cmd < 0 ∨ shmid < 0 then (-1, { w with errno := EINVAL })
  else if cmd = IPC_RMID then
    match findSeg w.segs shmid with
    | none => (-1, { w with errno := EINVAL })
    | some s =>
      if s.nattch = 0 then
        (0, { w with segs := w.segs.filter (fun t => decide (t.shmid ≠ shmid)) })
      else
        (0, { w with segs := w.segs.map (fun t =>
          if t.shmid = shmid then { t with dest := true, key := IPC_PRIVATE } else t) })
  else (-1, { w with errno := EINVAL })

/-! ## The process memory and the JNI function table -/

/-- Byte at address `a` of a process with attachments `maps`: the byte of the
segment attached there, or nothing when no attachment covers `a`. -/
def readMem (segs : List Segment) (maps : List Mapping) (a : Int) : Option Byte :=
  match maps.find? (fun m => decide (m.addr ≤ a) && decide (a < m.addr + m.len)) with
  | none => none
  | some m =>
    match findSeg segs m.shmid with
    | none => none
    | some s => some (s.mem (a - m.addr).toNat)

/-- The `n` bytes of process memory from address `a` on, or nothing when one of
them is not mapped. -/
def readBytes (segs : List Segment) (maps : List Mapping) (a : Int) : Nat → Option (List Byte)
  | 0 => some []
  | n + 1 =>
    match readMem segs maps a, readBytes segs maps (a + 1) n with
    | some b, some bs => some (b :: bs)
    | _, _ => none

/-- JNI `NewByteArray(env, length)`: a new array of `length` zero bytes, or
`NULL` with `NegativeArraySizeException` pending when `length` is negative. -/
def NewByteArray (w : World) (length : Int) : Option Nat × World :=
  let w := { w with calls := w.calls ++ [Call.NewByteArray length] }
  if length < 0 then (none, { w with exc := some Throwable.NegativeArraySizeException })
  else (some w.heap.length, { w with heap := w.heap ++ [List.replicate length.toNat 0] })

/-- JNI `SetByteArrayRegion(env, array, start, len, buf)`: copies `len` bytes of
process memory from `buf` into the array at `start`.  A region outside the
array leaves `ArrayIndexOutOfBoundsException` pending; a source byte that is
not mapped kills the process.  For the null array the JNI specification gives
no behaviour; the model has nothing to copy into and lets the call return, so
that what the C code does after the call is visible. -/
def SetByteArrayRegion (w : World) (array : Option Nat) (start len : Int) (buf : Int) :
    Outcome Unit :=
  let w := { w with calls := w.calls ++ [Call.SetByteArrayRegion array start len buf] }
  match array with
  | none => .ret () w
  | some a =>
    match w.heap[a]? with
    | none => .ret () w
    | some arr =>
      if start < 0 ∨ len < 0 ∨ (arr.length : Int) < start + len then
        .ret () { w with exc := some Throwable.ArrayIndexOutOfBoundsException }
      else
        match readBytes w.segs w.maps buf len.toNat with
        | none => .sigsegv
        | some bs =>
          let arr := arr.take start.toNat ++ bs ++ arr.drop (start.toNat + len.toNat)
          .ret () { w with heap := w.heap.set a arr }

/-! ## The three entry points of `shm.c` -/

/-- Entry point `Java_com_example_fuzzer_sharedmemory_Shm_createSharedMemory`. -/
def createSharedMemory (w : World) (size : Int) : Int × World :=
  let (shmId, w) := shmget w IPC_PRIVATE (toSizeT size) (IPC_CREAT ||| IPC_EXCL ||| 0o600)
  (shmId, w)

/-- Entry point `Java_com_example_fuzzer_sharedmemory_Shm_readSharedMemory`;
the result `none` is `NULL`. -/
def readSharedMemory (w : World) (shmId : Int) (size : Int) : Outcome (Option Nat) :=
  let (shmAddr, w) := shmat w shmId NULL SHM_RDONLY
  if shmAddr = -1 then .ret none w
  else
    let (result, w) := NewByteArray w size
    match SetByteArrayRegion w result 0 size shmAddr with
    | .sigsegv => .sigsegv
    | .ret _ w =>
      let (_, w) := shmdt w shmAddr
      .ret result w

/-- Entry point `Java_com_example_fuzzer_sharedmemory_Shm_destroySharedMemory`;
the C function is `void` and drops the result of `shmctl`. -/
def destroySharedMemory (w : World) (shmId : Int) : Unit × World :=
  let (_, w) := shmctl w shmId IPC_RMID NULL
  ((), w)

/-- A world with no segment, no attachment and an empty heap. -/
def World.empty (shmmax : Nat) : World :=
  { segs := [], maps := [], heap := [], exc := none, errno := 0, shmmax := shmmax, calls := [] }

/-! ## Notions the properties are stated with -/

/-- Segment a read-only attach of `h` reaches: `h` is not negative, names a
segment of the table, and the segment is readable by its owner. -/
def attachable (segs : List Segment) (h : Int) : Option Segment :=
  if h < 0 then none
  else
    match findSeg segs h with
    | none => none
    | some s => if s.mode &&& 0o400 = 0o400 then some s else none

/-- Segment table after segment `h` was attached and detached once. -/
def afterRead (segs : List Segment) (h : Int) : List Segment :=
  segs.filter (fun t => !(decide (t.shmid = h) && decide (t.nattch = 0) && t.dest))

/-- The attachment a read-only `shmat` of segment `s` under `h` adds. -/
def readMapping (maps : List Mapping) (h : Int) (s : Segment) : Mapping :=
  { addr := freshAddr maps, len := mappedLen s.segsz, shmid := h, rdonly := true }

/-- Handle `h` is live in `w` and names segment `s`: `h` is not negative, the
table has `s` under `h`, with the mode `createSharedMemory` asks for, and `s`
is not marked for destruction. -/
def LiveSeg (w : World) (h : Int) (s : Segment) : Prop :=
  0 ≤ h ∧ findSeg w.segs h = some s ∧ s.mode = 0o600 ∧ s.dest = false

/-- Number of attachments of segment `id` in this process. -/
def attachCount (w : World) (id : Int) : Nat :=
  (w.maps.filter (fun m => m.shmid = id)).length

/-- Kernel invariant: a segment marked for destruction is still in the table
only while it is attached, and identifiers are not shared. -/
def Consistent (w : World) : Prop :=
  (w.segs.map Segment.shmid).Nodup ∧ ∀ s ∈ w.segs, s.dest = true → 0 < s.nattch

/-- Contents of the byte array a read returned; nothing for `NULL`. -/
def buffer (w : World) (r : Option Nat) : Option (List Byte) :=
  r.bind (fun a => w.heap[a]?)

/-- What the Java caller of a `void` native method observes when it returns:
the (empty) result and the exception thrown, if one is pending. -/
def callerView (r : Unit × World) : Unit × Option Throwable := (r.1, r.2.exc)

/-- Value a call returned, or nothing when the process was killed. -/
def Outcome.result {α : Type} : Outcome α → Option α
  | .ret v _ => some v
  | .sigsegv => none

/-- World a call returned in, or nothing when the process was killed. -/
def Outcome.world {α : Type} : Outcome α → Option World
  | .ret _ w => some w
  | .sigsegv => none

/-- A segment of `size` bytes under identifier `id`, every byte equal to `b`. -/
def filledSeg (id : Int) (size : Nat) (b : Byte) : Segment :=
  { shmid := id, key := IPC_PRIVATE, mode := 0o600, segsz := size, nattch := 0, dest := false,
    mem := fun _ => b }

/-- A world whose only segment is `s`. -/
def World.single (s : Segment) : World :=
  { segs := [s], maps := [], heap := [], exc := none, errno := 0, shmmax := 2 ^ 32, calls := [] }

/-! ## Facts about the kernel model -/

theorem findSeg_map (f : Segment → Segment) (hf : ∀ t, (f t).shmid = t.shmid)
    (segs : List Segment) (id : Int) :
    findSeg (segs.map f) id = (findSeg segs id).map f := by
  unfold findSeg
  rw [List.find?_map]
  have : ((fun s : Segment => decide (s.shmid = id)) ∘ f) = fun s => decide (s.shmid = id) := by
    funext t; simp [hf]
  rw [this]

theorem freshAddr_ne (maps : List Mapping) : freshAddr maps ≠ -1 := by
  unfold freshAddr
  omega

theorem readMem_map (f : Segment → Segment) (hf : ∀ t, (f t).shmid = t.shmid)
    (hm : ∀ t, (f t).mem = t.mem) (segs : List Segment) (maps : List Mapping) (a : Int) :
    readMem (segs.map f) maps a = readMem segs maps a := by
  unfold readMem
  cases maps.find? (fun m => decide (m.addr ≤ a) && decide (a < m.addr + m.len)) with
  | none => rfl
  | some m =>
    simp only [findSeg_map f hf]
    cases findSeg segs m.shmid with
    | none => rfl
    | some s => simp [hm]

theorem readBytes_map (f : Segment → Segment) (hf : ∀ t, (f t).shmid = t.shmid)
    (hm : ∀ t, (f t).mem = t.mem) (segs : List Segment) (maps : List Mapping) (a : Int)
    (n : Nat) : readBytes (segs.map f) maps a n = readBytes segs maps a n := by
  induction n generalizing a with
  | zero => rfl
  | succ n ih => simp only [readBytes, readMem_map f hf hm, ih]

/-- Reading inside the most recent attachment gives the bytes of its segment. -/
theorem readBytes_head (segs : List Segment) (m : Mapping) (maps : List Mapping) (s : Segment)
    (hs : findSeg segs m.shmid = some s) (n : Nat) :
    ∀ k : Nat, k + n ≤ m.len →
      readBytes segs (m :: maps) (m.addr + k) n = some ((List.range' k n).map s.mem) := by
  induction n with
  | zero => intro k _; rfl
  | succ n ih =>
    intro k hk
    have hrec := ih (k + 1) (by omega)
    have hmem : readMem segs (m :: maps) (m.addr + k) = some (s.mem k) := by
      unfold readMem
      have hp : (decide (m.addr ≤ m.addr + k) && decide (m.addr + (k : Int) < m.addr + m.len))
          = true := by
        simp; omega
      have hf : (m :: maps).find? (fun x => decide (x.addr ≤ m.addr + k) &&
          decide (m.addr + (k : Int) < x.addr + x.len)) = some m := by
        rw [List.find?_cons_of_pos]; exact hp
      rw [hf]
      simp [hs]
    have hadd : m.addr + (k : Int) + 1 = m.addr + ((k + 1 : Nat) : Int) := by push_cast; ring
    simp only [readBytes, hmem, hadd, hrec, List.range', List.map]

/-! ## What one read does, case by case -/

theorem shmat_fail (w : World) (h : Int) (hA : attachable w.segs h = none) :
    ∃ e, shmat w h NULL SHM_RDONLY =
      (-1, { w with calls := w.calls ++ [Call.shmat h NULL SHM_RDONLY], errno := e }) := by
  unfold attachable at hA
  unfold shmat
  by_cases h0 : h < 0
  · exact ⟨EINVAL, by simp [h0]⟩
  · simp only [h0, if_false] at hA ⊢
    cases hs : findSeg w.segs h with
    | none => exact ⟨EINVAL, by simp⟩
    | some s =>
      rw [hs] at hA
      have hm : ¬ s.mode &&& 0o400 = 0o400 := by
        intro hm; simp [hm] at hA
      refine ⟨EACCES, ?_⟩
      have hr : SHM_RDONLY ≠ 0 := by decide
      simp [hr, hm]

theorem shmat_ok (w : World) (h : Int) (s : Segment) (hA : attachable w.segs h = some s) :
    shmat w h NULL SHM_RDONLY =
      (freshAddr w.maps,
        { w with
          calls := w.calls ++ [Call.shmat h NULL SHM_RDONLY]
          maps := readMapping w.maps h s :: w.maps
          segs := w.segs.map (fun t =>
            if t.shmid = h then { t with nattch := t.nattch + 1 } else t) }) := by
  unfold attachable at hA
  unfold shmat
  by_cases h0 : h < 0
  · simp [h0] at hA
  · simp only [h0, if_false] at hA ⊢
    cases hs : findSeg w.segs h with
    | none => simp [hs] at hA
    | some t =>
      rw [hs] at hA
      by_cases hm : t.mode &&& 0o400 = 0o400
      · simp only [hm, if_true, Option.some.injEq] at hA
        subst hA
        have hr : SHM_RDONLY ≠ 0 := by decide
        simp [hr, hm, readMapping, NULL]
      · simp [hm] at hA

theorem detach_attach_comp (h : Int) :
    ((fun t : Segment => if t.shmid = h then { t with nattch := t.nattch - 1 } else t) ∘
      (fun t : Segment => if t.shmid = h then { t with nattch := t.nattch + 1 } else t)) = id := by
  funext t
  cases t with
  | mk shmid key mode segsz nattch dest mem =>
    by_cases ht : shmid = h <;> simp [ht]

/-- A read whose attach fails: one call, no buffer. -/
theorem read_fail (w : World) (h n : Int) (hA : attachable w.segs h = none) :
    ∃ e, readSharedMemory w h n =
      .ret none { w with calls := w.calls ++ [Call.shmat h NULL SHM_RDONLY], errno := e } := by
  obtain ⟨e, he⟩ := shmat_fail w h hA
  exact ⟨e, by simp [readSharedMemory, he]⟩

/-- A read of an attachable segment with a negative size. -/
theorem read_neg (w : World) (h n : Int) (s : Segment) (hA : attachable w.segs h = some s)
    (hn : n < 0) :
    readSharedMemory w h n =
      .ret none { w with
        segs := afterRead w.segs h
        exc := some Throwable.NegativeArraySizeException
        calls := w.calls ++ [Call.shmat h NULL SHM_RDONLY, Call.NewByteArray n,
          Call.SetByteArrayRegion none 0 n (freshAddr w.maps), Call.shmdt (freshAddr w.maps)] } := by
  simp [readSharedMemory, shmat_ok w h s hA, freshAddr_ne, NewByteArray, hn, SetByteArrayRegion,
    shmdt, readMapping, detach_attach_comp, afterRead]

/-- A read of an attachable segment with a size that is not negative. -/
theorem read_copy (w : World) (h n : Int) (s : Segment) (hA : attachable w.segs h = some s)
    (hn : 0 ≤ n) :
    readSharedMemory w h n =
      match readBytes w.segs (readMapping w.maps h s :: w.maps) (freshAddr w.maps) n.toNat with
      | none => .sigsegv
      | some bs =>
        .ret (some w.heap.length) { w with
          segs := afterRead w.segs h
          heap := w.heap ++ [bs]
          calls := w.calls ++ [Call.shmat h NULL SHM_RDONLY, Call.NewByteArray n,
            Call.SetByteArrayRegion (some w.heap.length) 0 n (freshAddr w.maps),
            Call.shmdt (freshAddr w.maps)] } := by
  have hn' : ¬ n < 0 := by omega
  have hlen : ¬ ((n.toNat : Int) < n) := by omega
  simp only [readSharedMemory, shmat_ok w h s hA, freshAddr_ne, NewByteArray, hn',
    SetByteArrayRegion, if_false]
  rw [readBytes_map _ (by intro t; by_cases ht : t.shmid = h <;> simp [ht])
    (by intro t; by_cases ht : t.shmid = h <;> simp [ht])]
  simp [hlen]
  cases readBytes w.segs (readMapping w.maps h s :: w.maps) (freshAddr w.maps) n.toNat with
  | none => rfl
  | some bs =>
    simp [shmdt, readMapping, detach_attach_comp, afterRead]

theorem attachable_of_live {w : World} {h : Int} {s : Segment} (hl : LiveSeg w h s) :
    attachable w.segs h = some s := by
  obtain ⟨h0, hs, hm, _⟩ := hl
  have h0' : ¬ h < 0 := by omega
  have hr : s.mode &&& 0o400 = 0o400 := by rw [hm]; decide
  simp [attachable, h0', hs, hr]

theorem attachable_some {segs : List Segment} {h : Int} {s : Segment}
    (hA : attachable segs h = some s) : 0 ≤ h ∧ findSeg segs h = some s := by
  unfold attachable at hA
  by_cases h0 : h < 0
  · simp [h0] at hA
  · simp only [h0, if_false] at hA
    cases hs : findSeg segs h with
    | none => simp [hs] at hA
    | some t =>
      rw [hs] at hA
      by_cases hm : t.mode &&& 0o400 = 0o400
      · simp only [hm, if_true, Option.some.injEq] at hA
        subst hA
        exact ⟨by omega, rfl⟩
      · simp [hm] at hA

theorem le_mappedLen (m : Nat) : m ≤ mappedLen m := by
  unfold mappedLen PAGE_SIZE
  omega

/-- A read of at most the mapped pages of an attachable segment returns a new
array with the bytes of the segment. -/
theorem read_within (w : World) (h n : Int) (s : Segment) (hA : attachable w.segs h = some s)
    (h0 : 0 ≤ n) (hn : n.toNat ≤ mappedLen s.segsz) :
    readSharedMemory w h n =
      .ret (some w.heap.length) { w with
        segs := afterRead w.segs h
        heap := w.heap ++ [(List.range n.toNat).map s.mem]
        calls := w.calls ++ [Call.shmat h NULL SHM_RDONLY, Call.NewByteArray n,
          Call.SetByteArrayRegion (some w.heap.length) 0 n (freshAddr w.maps),
          Call.shmdt (freshAddr w.maps)] } := by
  rw [read_copy w h n s hA h0]
  have hb := readBytes_head w.segs (readMapping w.maps h s) w.maps s
    (attachable_some hA).2 n.toNat 0 (by simpa [readMapping] using hn)
  simp only [readMapping, Nat.cast_zero, add_zero] at hb
  simp only [readMapping, hb, List.range_eq_range']

theorem range_map_getElem? (f : Nat → Byte) (n i : Nat) (hi : i < n) :
    ((List.range n).map f)[i]? = some (f i) := by
  simp [List.getElem?_map, List.getElem?_range hi]

/-- What a returning read leaves behind: the attachments as they were, and the
segment table as it was or with segment `h` attached and detached once. -/
theorem read_ret_frame (w : World) (h n : Int) (r : Option Nat) (w' : World)
    (hr : readSharedMemory w h n = .ret r w') :
    w'.maps = w.maps ∧ (w'.segs = w.segs ∨ w'.segs = afterRead w.segs h) := by
  cases hA : attachable w.segs h with
  | none =>
    obtain ⟨e, he⟩ := read_fail w h n hA
    rw [he] at hr
    simp only [Outcome.ret.injEq] at hr
    obtain ⟨_, rfl⟩ := hr
    exact ⟨rfl, Or.inl rfl⟩
  | some s =>
    by_cases hn : n < 0
    · rw [read_neg w h n s hA hn] at hr
      simp only [Outcome.ret.injEq] at hr
      obtain ⟨_, rfl⟩ := hr
      exact ⟨rfl, Or.inr rfl⟩
    · rw [read_copy w h n s hA (by omega)] at hr
      cases hb : readBytes w.segs (readMapping w.maps h s :: w.maps) (freshAddr w.maps) n.toNat with
      | none => simp [hb] at hr
      | some bs =>
        simp only [hb, Outcome.ret.injEq] at hr
        obtain ⟨_, rfl⟩ := hr
        exact ⟨rfl, Or.inr rfl⟩

theorem findSeg_filter_ne (segs : List Segment) (h : Int) :
    findSeg (segs.filter (fun t => decide (t.shmid ≠ h))) h = none := by
  unfold findSeg
  rw [List.find?_eq_none]
  intro t ht
  have := (List.mem_filter.mp ht).2
  simpa using this

theorem shmctl_rmid_unattached (w : World) (h : Int) (s : Segment) (h0 : 0 ≤ h)
    (hs : findSeg w.segs h = some s) (hat : s.nattch = 0) :
    shmctl w h IPC_RMID NULL =
      (0, { w with
        calls := w.calls ++ [Call.shmctl h IPC_RMID NULL]
        segs := w.segs.filter (fun t => decide (t.shmid ≠ h)) }) := by
  have h0' : ¬ h < 0 := by omega
  simp [shmctl, IPC_RMID, h0', hs, hat]

theorem shmctl_rmid_absent (w : World) (h : Int) (hs : findSeg w.segs h = none) :
    shmctl w h IPC_RMID NULL =
      (-1, { w with calls := w.calls ++ [Call.shmctl h IPC_RMID NULL], errno := EINVAL }) := by
  by_cases h0 : h < 0 <;> simp [shmctl, IPC_RMID, h0, hs]

theorem freshId_nonneg (segs : List Segment) : 0 ≤ freshId segs := by
  induction segs with
  | nil => simp [freshId]
  | cons s segs ih =>
    have : freshId (s :: segs) = max (s.shmid + 1) (freshId segs) := rfl
    rw [this]
    omega

theorem lt_freshId (segs : List Segment) : ∀ s ∈ segs, s.shmid < freshId segs := by
  induction segs with
  | nil => intro s hs; cases hs
  | cons t segs ih =>
    have hcons : freshId (t :: segs) = max (t.shmid + 1) (freshId segs) := rfl
    intro s hs
    rw [hcons]
    rcases List.mem_cons.mp hs with rfl | hs
    · omega
    · have := ih s hs
      omega

theorem findSeg_freshId (segs : List Segment) : findSeg segs (freshId segs) = none := by
  unfold findSeg
  rw [List.find?_eq_none]
  intro t ht
  have := lt_freshId segs t ht
  simp
  omega

/-- The segment `createSharedMemory` enters in the table. -/
theorem create_ok (w : World) (size : Int)
    (hsz : ¬ (toSizeT size < SHMMIN ∨ w.shmmax < toSizeT size ∨ MAX_LFS_FILESIZE < toSizeT size)) :
    createSharedMemory w size =
      (freshId w.segs, { w with
        calls := w.calls ++ [Call.shmget IPC_PRIVATE (toSizeT size) (IPC_CREAT ||| IPC_EXCL ||| 0o600)]
        segs := filledSeg (freshId w.segs) (toSizeT size) 0 :: w.segs }) := by
  have hmode : (IPC_CREAT ||| IPC_EXCL ||| 0o600) &&& 0o777 = 0o600 := by decide
  simp only [createSharedMemory, shmget, newseg, if_true, hsz, if_false, hmode, filledSeg]

theorem create_fail (w : World) (size : Int)
    (hsz : toSizeT size < SHMMIN ∨ w.shmmax < toSizeT size ∨ MAX_LFS_FILESIZE < toSizeT size) :
    createSharedMemory w size =
      (-1, { w with
        calls := w.calls ++ [Call.shmget IPC_PRIVATE (toSizeT size) (IPC_CREAT ||| IPC_EXCL ||| 0o600)]
        errno := EINVAL }) := by
  simp only [createSharedMemory, shmget, newseg, if_true, hsz]

theorem toSizeT_nonpositive (size : Int) (hlo : JINT_MIN ≤ size) (hle : size ≤ 0) :
    toSizeT size < SHMMIN ∨ MAX_LFS_FILESIZE < toSizeT size := by
  unfold JINT_MIN at hlo
  unfold toSizeT SHMMIN MAX_LFS_FILESIZE
  norm_num at hlo ⊢
  omega

theorem toSizeT_positive (size : Int) (hpos : 0 < size) (hhi : size ≤ JINT_MAX) :
    toSizeT size = size.toNat := by
  unfold JINT_MAX at hhi
  unfold toSizeT
  norm_num at hhi ⊢
  omega

theorem afterRead_consistent {w : World} (hc : Consistent w) (h : Int) :
    afterRead w.segs h = w.segs := by
  unfold afterRead
  rw [List.filter_eq_self]
  intro t ht
  have := hc.2 t ht
  cases hd : t.dest with
  | false => simp
  | true =>
    have hpos := this hd
    have hne : t.nattch ≠ 0 := by omega
    simp [hne]

theorem newByteArray_none (w : World) (n : Int) : (NewByteArray w n).1 = none ↔ n < 0 := by
  unfold NewByteArray
  by_cases hn : n < 0 <;> simp [hn]

theorem getElem?_append_length {α : Type} (l : List α) (a : α) (t : List α) :
    (l ++ a :: t)[l.length]? = some a := by
  induction l with
  | nil => simp
  | cons x l ih => simpa using ih

theorem getElem?_append_length_succ {α : Type} (l : List α) (a b : α) (t : List α) :
    (l ++ a :: b :: t)[l.length + 1]? = some b := by
  induction l with
  | nil => simp
  | cons x l ih => simpa using ih

/-! ## The kernel invariant is kept by the system calls and the entry points -/

theorem findSeg_unique (segs : List Segment) (hnd : (segs.map Segment.shmid).Nodup)
    (t s : Segment) (ht : t ∈ segs) (hs : findSeg segs t.shmid = some s) : s = t := by
  induction segs with
  | nil => cases ht
  | cons x xs ih =>
    rw [List.map_cons, List.nodup_cons] at hnd
    unfold findSeg at hs
    by_cases hx : x.shmid = t.shmid
    · rw [List.find?_cons_of_pos _ (by simpa using hx)] at hs
      rcases List.mem_cons.mp ht with rfl | hmem
      · exact (Option.some.inj hs).symm
      · exact absurd (hx ▸ List.mem_map_of_mem Segment.shmid hmem) hnd.1
    · rw [List.find?_cons_of_neg _ (by simpa using hx)] at hs
      rcases List.mem_cons.mp ht with rfl | hmem
      · exact absurd rfl hx
      · exact ih hnd.2 hmem hs

theorem consistent_empty (shmmax : Nat) : Consistent (World.empty shmmax) :=
  ⟨List.nodup_nil, fun _ hs => by cases hs⟩

theorem create_consistent (w : World) (size : Int) (hc : Consistent w) :
    Consistent (createSharedMemory w size).2 := by
  by_cases hsz : toSizeT size < SHMMIN ∨ w.shmmax < toSizeT size ∨ MAX_LFS_FILESIZE < toSizeT size
  · rw [create_fail w size hsz]
    exact hc
  · rw [create_ok w size hsz]
    refine ⟨?_, ?_⟩
    · show ((filledSeg (freshId w.segs) (toSizeT size) 0 :: w.segs).map Segment.shmid).Nodup
      rw [List.map_cons, List.nodup_cons]
      refine ⟨?_, hc.1⟩
      intro hmem
      obtain ⟨t, ht, hid⟩ := List.mem_map.mp hmem
      have hlt := lt_freshId w.segs t ht
      have : t.shmid = freshId w.segs := hid
      omega
    · intro s hs hd
      rcases List.mem_cons.mp hs with rfl | hs
      · cases hd
      · exact hc.2 s hs hd

theorem read_consistent (w : World) (h n : Int) (r : Option Nat) (w' : World)
    (hc : Consistent w) (hr : readSharedMemory w h n = .ret r w') : Consistent w' := by
  have hseg : w'.segs = w.segs := by
    rcases (read_ret_frame w h n r w' hr).2 with hs | hs
    · exact hs
    · rw [hs, afterRead_consistent hc h]
  unfold Consistent
  rw [hseg]
  exact hc

theorem segs_map_consistent (segs : List Segment) (f : Segment → Segment)
    (hid : ∀ t, (f t).shmid = t.shmid)
    (hd : ∀ t ∈ segs, (f t).dest = true → 0 < (f t).nattch)
    (hnd : (segs.map Segment.shmid).Nodup) :
    ((segs.map f).map Segment.shmid).Nodup ∧
      ∀ s ∈ segs.map f, s.dest = true → 0 < s.nattch := by
  refine ⟨?_, ?_⟩
  · have hids : (segs.map f).map Segment.shmid = segs.map Segment.shmid := by
      rw [List.map_map]
      exact List.map_congr_left (fun t _ => hid t)
    rw [hids]
    exact hnd
  · intro s hs hdest
    obtain ⟨t, ht, rfl⟩ := List.mem_map.mp hs
    exact hd t ht hdest

theorem shmget_consistent (w : World) (key : Int) (size flg : Nat) (hc : Consistent w) :
    Consistent (shmget w key size flg).2 := by
  have hnew : ∀ w0 : World, Consistent w0 → Consistent (newseg w0 key size flg).2 := by
    intro w0 h0
    unfold newseg
    split
    · exact h0
    · refine ⟨?_, ?_⟩
      · show ((_ :: w0.segs).map Segment.shmid).Nodup
        rw [List.map_cons, List.nodup_cons]
        refine ⟨?_, h0.1⟩
        intro hmem
        obtain ⟨t, ht, hid⟩ := List.mem_map.mp hmem
        have hlt := lt_freshId w0.segs t ht
        have : t.shmid = freshId w0.segs := hid
        omega
      · intro s hs hd
        rcases List.mem_cons.mp hs with rfl | hs
        · cases hd
        · exact h0.2 s hs hd
  unfold shmget
  simp only []
  split
  · exact hnew _ hc
  · split
    · split
      · exact hnew _ hc
      · exact hc
    · split
      · exact hc
      · split
        · exact hc
        · split
          · exact hc
          · exact hc

theorem shmat_consistent (w : World) (shmid shmaddr : Int) (flg : Nat) (hc : Consistent w) :
    Consistent (shmat w shmid shmaddr flg).2 := by
  unfold shmat
  simp only []
  repeat' split
  all_goals first
    | exact hc
    | skip
  all_goals
    unfold Consistent
    dsimp only
    refine segs_map_consistent w.segs _ ?_ ?_ hc.1
    · intro t
      by_cases ht : t.shmid = shmid <;> simp [ht]
    · intro t ht hd
      by_cases hid : t.shmid = shmid
      · simp [hid]
      · simp only [hid, if_false] at hd ⊢
        exact hc.2 t ht hd

theorem shmdt_consistent (w : World) (shmaddr : Int) (hc : Consistent w) :
    Consistent (shmdt w shmaddr).2 := by
  unfold shmdt
  simp only []
  split
  · exact hc
  · rename_i m _
    refine ⟨?_, ?_⟩
    · have hids : (w.segs.map (fun t : Segment =>
          if t.shmid = m.shmid then { t with nattch := t.nattch - 1 } else t)).map Segment.shmid
          = w.segs.map Segment.shmid := by
        rw [List.map_map]
        apply List.map_congr_left
        intro t _
        by_cases ht : t.shmid = m.shmid <;> simp [ht]
      have hsub := (List.filter_sublist (p := fun t : Segment =>
          !(decide (t.shmid = m.shmid) && decide (t.nattch = 0) && t.dest))
        (w.segs.map (fun t : Segment =>
          if t.shmid = m.shmid then { t with nattch := t.nattch - 1 } else t))).map Segment.shmid
      rw [hids] at hsub
      exact hc.1.sublist hsub
    · intro s hs hd
      obtain ⟨hmem, hkeep⟩ := List.mem_filter.mp hs
      obtain ⟨t, ht, rfl⟩ := List.mem_map.mp hmem
      by_cases hid : t.shmid = m.shmid
      · simp only [hid, if_true] at hd hkeep ⊢
        simp [hd] at hkeep
        omega
      · simp only [hid, if_false] at hd ⊢
        exact hc.2 t ht hd

theorem shmctl_consistent (w : World) (shmid cmd buf : Int) (hc : Consistent w) :
    Consistent (shmctl w shmid cmd buf).2 := by
  unfold shmctl
  simp only []
  split
  · exact hc
  · split
    · split
      · exact hc
      · rename_i s hs
        split
        · refine ⟨?_, ?_⟩
          · exact hc.1.sublist ((List.filter_sublist w.segs).map Segment.shmid)
          · intro t ht hd
            exact hc.2 t (List.mem_filter.mp ht).1 hd
        · rename_i hat
          unfold Consistent
          dsimp only
          refine segs_map_consistent w.segs _ ?_ ?_ hc.1
          · intro t
            by_cases ht : t.shmid = shmid <;> simp [ht]
          · intro t ht hd
            by_cases hid : t.shmid = shmid
            · have hst : s = t := findSeg_unique w.segs hc.1 t s ht (by rw [hid]; exact hs)
              subst hst
              simp only [hid, if_true]
              omega
            · simp only [hid, if_false] at hd ⊢
              exact hc.2 t ht hd
    · exact hc

theorem destroy_consistent (w : World) (h : Int) (hc : Consistent w) :
    Consistent (destroySharedMemory w h).2 :=
  shmctl_consistent w h IPC_RMID NULL hc

/-! ## The properties -/

/-- C1: for a live handle `h` naming segment `s` and a size `n` with
`0 ≤ n ≤ s.segsz`, `readSharedMemory w h n` returns a reference that was not an
array before, the older arrays are untouched, and the new array has length
exactly `n` with byte `i` equal to byte `i` of the segment for every `i < n`. -/
theorem read_live_copies (w : World) (h n : Int) (s : Segment) (hl : LiveSeg w h s)
    (h0 : 0 ≤ n) (hn : n ≤ s.segsz) :
    ∃ arr w', readSharedMemory w h n = .ret (some w.heap.length) w' ∧
      w'.heap = w.heap ++ [arr] ∧ (arr.length : Int) = n ∧
      ∀ i : Nat, (i : Int) < n → arr[i]? = some (s.mem i) := by
  have hle := le_mappedLen s.segsz
  refine ⟨(List.range n.toNat).map s.mem, _,
    read_within w h n s (attachable_of_live hl) h0 (by omega), rfl, ?_, ?_⟩
  · simp
    omega
  · intro i hi
    exact range_map_getElem? s.mem n.toNat i (by omega)

/-- Witness of C1: a segment of 64 bytes `0xAB` read in full. -/
theorem read_live_copies_witness :
    LiveSeg (World.single (filledSeg 0 64 0xAB)) 0 (filledSeg 0 64 0xAB) ∧
    (0 : Int) ≤ 64 ∧ (64 : Int) ≤ (filledSeg 0 64 0xAB).segsz ∧
    ∃ arr w', readSharedMemory (World.single (filledSeg 0 64 0xAB)) 0 64
        = .ret (some (World.single (filledSeg 0 64 0xAB)).heap.length) w' ∧
      w'.heap = (World.single (filledSeg 0 64 0xAB)).heap ++ [arr] ∧ (arr.length : Int) = 64 ∧
      ∀ i : Nat, (i : Int) < 64 → arr[i]? = some ((filledSeg 0 64 0xAB).mem i) :=
  ⟨⟨by decide, rfl, rfl, rfl⟩, by decide, by decide,
    read_live_copies (World.single (filledSeg 0 64 0xAB)) 0 64 (filledSeg 0 64 0xAB)
      ⟨by decide, rfl, rfl, rfl⟩ (by decide) (by decide)⟩

/-- C2: whenever `readSharedMemory` returns, with a buffer or with `NULL`, the
attachments of the process are what they were before the call, so every
segment has as many attachments in the process as before. -/
theorem read_detaches (w : World) (h n : Int) (r : Option Nat) (w' : World)
    (hr : readSharedMemory w h n = .ret r w') :
    w'.maps = w.maps ∧ ∀ id, attachCount w' id = attachCount w id := by
  have hm := (read_ret_frame w h n r w' hr).1
  exact ⟨hm, fun id => by simp [attachCount, hm]⟩

/-- Witness of C2: a read of two bytes of a four-byte segment. -/
theorem read_detaches_witness :
    ∃ r w', readSharedMemory (World.single (filledSeg 0 4 7)) 0 2 = .ret r w' ∧
      (w'.maps = (World.single (filledSeg 0 4 7)).maps ∧
        ∀ id, attachCount w' id = attachCount (World.single (filledSeg 0 4 7)) id) :=
  ⟨_, _, read_within (World.single (filledSeg 0 4 7)) 0 2 (filledSeg 0 4 7) rfl (by decide)
      (by decide),
    read_detaches _ 0 2 _ _
      (read_within (World.single (filledSeg 0 4 7)) 0 2 (filledSeg 0 4 7) rfl (by decide)
        (by decide))⟩

/-- C3: for a live handle `h` whose segment has no attachment and every size
`n`, `destroySharedMemory h` followed by `readSharedMemory h n` returns `NULL`:
no array is created, and the segment is no longer in the table. -/
theorem read_after_destroy (w : World) (h n : Int) (s : Segment) (hl : LiveSeg w h s)
    (hat : s.nattch = 0) :
    ∃ w', readSharedMemory (destroySharedMemory w h).2 h n = .ret none w' ∧
      w'.heap = w.heap ∧ findSeg w'.segs h = none := by
  obtain ⟨h0, hs, _, _⟩ := hl
  have hd : (destroySharedMemory w h).2 = { w with
      calls := w.calls ++ [Call.shmctl h IPC_RMID NULL]
      segs := w.segs.filter (fun t => decide (t.shmid ≠ h)) } := by
    simp only [destroySharedMemory, shmctl_rmid_unattached w h s h0 hs hat]
  have hnone : attachable (destroySharedMemory w h).2.segs h = none := by
    rw [hd]
    unfold attachable
    simp only [findSeg_filter_ne]
    split <;> rfl
  obtain ⟨e, he⟩ := read_fail _ h n hnone
  refine ⟨_, he, ?_, ?_⟩
  · rw [hd]
  · rw [hd]
    exact findSeg_filter_ne w.segs h

/-- Witness of C3: a 64-byte segment released and then read. -/
theorem read_after_destroy_witness :
    LiveSeg (World.single (filledSeg 0 64 0xAB)) 0 (filledSeg 0 64 0xAB) ∧
    (filledSeg 0 64 0xAB).nattch = 0 ∧
    ∃ w', readSharedMemory (destroySharedMemory (World.single (filledSeg 0 64 0xAB)) 0).2 0 64
        = .ret none w' ∧
      w'.heap = (World.single (filledSeg 0 64 0xAB)).heap ∧ findSeg w'.segs 0 = none :=
  ⟨⟨by decide, rfl, rfl, rfl⟩, rfl,
    read_after_destroy (World.single (filledSeg 0 64 0xAB)) 0 64 (filledSeg 0 64 0xAB)
      ⟨by decide, rfl, rfl, rfl⟩ rfl⟩

/-- C4, the claim as stated fails: on a world with one unattached segment the
first release succeeds inside (`shmctl` returns 0), the second fails inside
(`shmctl` returns -1), and the caller observes the same from both calls. -/
theorem destroy_twice_same_view :
    (shmctl (World.single (filledSeg 0 4 0)) 0 IPC_RMID NULL).1 = 0 ∧
    (shmctl (destroySharedMemory (World.single (filledSeg 0 4 0)) 0).2 0 IPC_RMID NULL).1 = -1 ∧
    ¬ (callerView (destroySharedMemory (destroySharedMemory (World.single (filledSeg 0 4 0)) 0).2 0)
        ≠ callerView (destroySharedMemory (World.single (filledSeg 0 4 0)) 0)) := by
  refine ⟨by decide, by decide, ?_⟩
  intro hne
  exact hne (by decide)

/-- C4 as amended: after a successful release of a live, unattached handle, a
second release fails inside the function (`shmctl` returns -1 with `EINVAL` and
the segment table is left as it was), and nothing of it reaches the caller: the
caller observes the same from the second call as from the first. -/
theorem destroy_twice_silent (w : World) (h : Int) (s : Segment) (hl : LiveSeg w h s)
    (hat : s.nattch = 0) :
    (shmctl w h IPC_RMID NULL).1 = 0 ∧
    (shmctl (destroySharedMemory w h).2 h IPC_RMID NULL).1 = -1 ∧
    (destroySharedMemory (destroySharedMemory w h).2 h).2.errno = EINVAL ∧
    (destroySharedMemory (destroySharedMemory w h).2 h).2.segs = (destroySharedMemory w h).2.segs ∧
    callerView (destroySharedMemory (destroySharedMemory w h).2 h)
      = callerView (destroySharedMemory w h) := by
  obtain ⟨h0, hs, _, _⟩ := hl
  have h1 := shmctl_rmid_unattached w h s h0 hs hat
  have h2 := shmctl_rmid_absent { w with
      calls := w.calls ++ [Call.shmctl h IPC_RMID NULL]
      segs := w.segs.filter (fun t => decide (t.shmid ≠ h)) } h (findSeg_filter_ne w.segs h)
  simp only [destroySharedMemory, h1, h2, callerView]
  exact ⟨trivial, trivial, trivial, trivial, trivial⟩

/-- Witness of C4 as amended. -/
theorem destroy_twice_silent_witness :
    LiveSeg (World.single (filledSeg 0 4 0)) 0 (filledSeg 0 4 0) ∧ (filledSeg 0 4 0).nattch = 0 ∧
    ((shmctl (World.single (filledSeg 0 4 0)) 0 IPC_RMID NULL).1 = 0 ∧
    (shmctl (destroySharedMemory (World.single (filledSeg 0 4 0)) 0).2 0 IPC_RMID NULL).1 = -1 ∧
    (destroySharedMemory (destroySharedMemory (World.single (filledSeg 0 4 0)) 0).2 0).2.errno
      = EINVAL ∧
    (destroySharedMemory (destroySharedMemory (World.single (filledSeg 0 4 0)) 0).2 0).2.segs
      = (destroySharedMemory (World.single (filledSeg 0 4 0)) 0).2.segs ∧
    callerView (destroySharedMemory (destroySharedMemory (World.single (filledSeg 0 4 0)) 0).2 0)
      = callerView (destroySharedMemory (World.single (filledSeg 0 4 0)) 0)) :=
  ⟨⟨by decide, rfl, rfl, rfl⟩, rfl,
    destroy_twice_silent (World.single (filledSeg 0 4 0)) 0 (filledSeg 0 4 0)
      ⟨by decide, rfl, rfl, rfl⟩ rfl⟩

/-- C5: for every `jint` size `≤ 0` (0 and -1 among them) `createSharedMemory`
fails with `EINVAL`: the segment table is unchanged and the value returned is
`-1`, which no read can attach; and whatever the size, the value returned is
either `-1` or not negative. -/
theorem create_nonpositive_fails (w : World) (size : Int) (hlo : JINT_MIN ≤ size)
    (hle : size ≤ 0) :
    (createSharedMemory w size).1 = -1 ∧
    (createSharedMemory w size).2.segs = w.segs ∧
    (createSharedMemory w size).2.errno = EINVAL ∧
    (∀ n, ∃ w', readSharedMemory (createSharedMemory w size).2 (createSharedMemory w size).1 n
      = .ret none w') ∧
    (∀ (w0 : World) (n0 : Int),
      (createSharedMemory w0 n0).1 = -1 ∨ 0 ≤ (createSharedMemory w0 n0).1) := by
  have hsz : toSizeT size < SHMMIN ∨ w.shmmax < toSizeT size ∨ MAX_LFS_FILESIZE < toSizeT size := by
    rcases toSizeT_nonpositive size hlo hle with h | h
    · exact Or.inl h
    · exact Or.inr (Or.inr h)
  rw [create_fail w size hsz]
  refine ⟨rfl, rfl, rfl, ?_, ?_⟩
  · intro n
    obtain ⟨e, he⟩ := read_fail { w with
      calls := w.calls ++ [Call.shmget IPC_PRIVATE (toSizeT size) (IPC_CREAT ||| IPC_EXCL ||| 0o600)]
      errno := EINVAL } (-1) n (by simp [attachable])
    exact ⟨_, he⟩
  · intro w0 n0
    by_cases h0 : toSizeT n0 < SHMMIN ∨ w0.shmmax < toSizeT n0 ∨ MAX_LFS_FILESIZE < toSizeT n0
    · exact Or.inl (by rw [create_fail w0 n0 h0])
    · exact Or.inr (by rw [create_ok w0 n0 h0]; exact freshId_nonneg w0.segs)

/-- Witness of C5: `createSharedMemory(-1)` on the empty world. -/
theorem create_nonpositive_fails_witness :
    JINT_MIN ≤ (-1 : Int) ∧ (-1 : Int) ≤ 0 ∧
    ((createSharedMemory (World.empty (2 ^ 32)) (-1)).1 = -1 ∧
    (createSharedMemory (World.empty (2 ^ 32)) (-1)).2.segs = (World.empty (2 ^ 32)).segs ∧
    (createSharedMemory (World.empty (2 ^ 32)) (-1)).2.errno = EINVAL ∧
    (∀ n, ∃ w', readSharedMemory (createSharedMemory (World.empty (2 ^ 32)) (-1)).2
        (createSharedMemory (World.empty (2 ^ 32)) (-1)).1 n = .ret none w') ∧
    (∀ (w0 : World) (n0 : Int),
      (createSharedMemory w0 n0).1 = -1 ∨ 0 ≤ (createSharedMemory w0 n0).1)) :=
  ⟨by decide, by decide,
    create_nonpositive_fails (World.empty (2 ^ 32)) (-1) (by decide) (by decide)⟩

/-- C7: for every positive `jint` size `n` for which `createSharedMemory n`
succeeds with handle `h`, the read of `n` bytes of `h` that follows at once
returns a new array of length `n` whose bytes are all zero. -/
theorem create_then_read_zero (w : World) (n h : Int) (w1 : World) (hpos : 0 < n)
    (hhi : n ≤ JINT_MAX) (hc : createSharedMemory w n = (h, w1)) (hok : h ≠ -1) :
    ∃ w2, readSharedMemory w1 h n = .ret (some w1.heap.length) w2 ∧
      w2.heap = w1.heap ++ [List.replicate n.toNat 0] ∧
      buffer w2 (some w1.heap.length) = some (List.replicate n.toNat 0) := by
  by_cases hsz : toSizeT n < SHMMIN ∨ w.shmmax < toSizeT n ∨ MAX_LFS_FILESIZE < toSizeT n
  · rw [create_fail w n hsz] at hc
    simp only [Prod.mk.injEq] at hc
    exact absurd hc.1.symm hok
  · rw [create_ok w n hsz] at hc
    simp only [Prod.mk.injEq] at hc
    obtain ⟨rfl, rfl⟩ := hc
    have h0 : ¬ freshId w.segs < 0 := by
      have := freshId_nonneg w.segs
      omega
    have hA : attachable (filledSeg (freshId w.segs) (toSizeT n) 0 :: w.segs) (freshId w.segs)
        = some (filledSeg (freshId w.segs) (toSizeT n) 0) := by
      have hlive : LiveSeg { w with segs := filledSeg (freshId w.segs) (toSizeT n) 0 :: w.segs }
          (freshId w.segs) (filledSeg (freshId w.segs) (toSizeT n) 0) :=
        ⟨freshId_nonneg w.segs, by simp [findSeg, filledSeg], rfl, rfl⟩
      exact attachable_of_live hlive
    have hle : n.toNat ≤ mappedLen (filledSeg (freshId w.segs) (toSizeT n) 0).segsz := by
      show n.toNat ≤ mappedLen (toSizeT n)
      rw [toSizeT_positive n hpos hhi]
      exact le_mappedLen _
    have hrd := read_within { w with
        calls := w.calls ++ [Call.shmget IPC_PRIVATE (toSizeT n) (IPC_CREAT ||| IPC_EXCL ||| 0o600)]
        segs := filledSeg (freshId w.segs) (toSizeT n) 0 :: w.segs }
      (freshId w.segs) n _ hA (by omega) hle
    have hz : (List.range n.toNat).map (filledSeg (freshId w.segs) (toSizeT n) 0).mem
        = List.replicate n.toNat 0 := by
      simp [filledSeg]
    refine ⟨_, hrd, ?_, ?_⟩
    · simp only [hz]
    · simp [buffer, hz]

/-- Witness of C7: four bytes allocated on the empty world and read back. -/
theorem create_then_read_zero_witness :
    ∃ w2, readSharedMemory { World.empty (2 ^ 32) with
          calls := (World.empty (2 ^ 32)).calls
            ++ [Call.shmget IPC_PRIVATE (toSizeT 4) (IPC_CREAT ||| IPC_EXCL ||| 0o600)]
          segs := filledSeg (freshId (World.empty (2 ^ 32)).segs) (toSizeT 4) 0
            :: (World.empty (2 ^ 32)).segs }
        (freshId (World.empty (2 ^ 32)).segs) 4 = .ret (some 0) w2 ∧
      w2.heap = [] ++ [List.replicate (4 : Int).toNat 0] ∧
      buffer w2 (some 0) = some (List.replicate (4 : Int).toNat 0) :=
  create_then_read_zero (World.empty (2 ^ 32)) 4 _ _ (by decide) (by decide)
    (create_ok (World.empty (2 ^ 32)) 4 (by decide)) (by decide)

/-- C9: every `createSharedMemory size` issues exactly one call, `shmget` with
the key `IPC_PRIVATE` and the flags `IPC_CREAT | IPC_EXCL | 0600`; the
permission bits of these flags are read and write for the owner and nothing for
group and others; the value returned is the value `shmget` returned; and when
it is not `-1` it is the identifier of a segment entered in the table by this
call, under an identifier no segment had, with mode `0600`. -/
theorem create_issues_private_request (w : World) (size : Int) :
    (createSharedMemory w size).2.calls
      = w.calls ++ [Call.shmget IPC_PRIVATE (toSizeT size) (IPC_CREAT ||| IPC_EXCL ||| 0o600)] ∧
    (IPC_CREAT ||| IPC_EXCL ||| 0o600) &&& IPC_CREAT = IPC_CREAT ∧
    (IPC_CREAT ||| IPC_EXCL ||| 0o600) &&& IPC_EXCL = IPC_EXCL ∧
    (IPC_CREAT ||| IPC_EXCL ||| 0o600) &&& 0o777 = 0o600 ∧
    (IPC_CREAT ||| IPC_EXCL ||| 0o600) &&& 0o077 = 0 ∧
    (createSharedMemory w size).1
      = (shmget w IPC_PRIVATE (toSizeT size) (IPC_CREAT ||| IPC_EXCL ||| 0o600)).1 ∧
    ((createSharedMemory w size).1 = -1 ∧ (createSharedMemory w size).2.segs = w.segs ∨
      findSeg w.segs (createSharedMemory w size).1 = none ∧
      ∃ s, (createSharedMemory w size).2.segs = s :: w.segs ∧
        s.shmid = (createSharedMemory w size).1 ∧ s.key = IPC_PRIVATE ∧ s.mode = 0o600 ∧
        s.segsz = toSizeT size ∧ s.nattch = 0 ∧
        LiveSeg (createSharedMemory w size).2 (createSharedMemory w size).1 s) := by
  refine ⟨?_, by decide, by decide, by decide, by decide, rfl, ?_⟩
  · by_cases hsz : toSizeT size < SHMMIN ∨ w.shmmax < toSizeT size ∨
        MAX_LFS_FILESIZE < toSizeT size
    · rw [create_fail w size hsz]
    · rw [create_ok w size hsz]
  · by_cases hsz : toSizeT size < SHMMIN ∨ w.shmmax < toSizeT size ∨
        MAX_LFS_FILESIZE < toSizeT size
    · rw [create_fail w size hsz]
      exact Or.inl ⟨rfl, rfl⟩
    · rw [create_ok w size hsz]
      refine Or.inr ⟨findSeg_freshId w.segs, _, rfl, rfl, rfl, rfl, rfl, rfl, ?_⟩
      exact ⟨freshId_nonneg w.segs, by simp [findSeg, filledSeg], rfl, rfl⟩

/-- C6, the claim as stated fails: a segment allocated with 4 bytes and read
with size 8 gives a buffer, of 8 bytes. -/
theorem read_beyond_size_gives_buffer :
    (createSharedMemory (World.empty (2 ^ 32)) 4).1 = 0 ∧
    (createSharedMemory (World.empty (2 ^ 32)) 4).2.segs.map Segment.segsz = [4] ∧
    (readSharedMemory (createSharedMemory (World.empty (2 ^ 32)) 4).2 0 8).result
      = some (some 0) ∧
    (readSharedMemory (createSharedMemory (World.empty (2 ^ 32)) 4).2 0 8).world.bind
      (fun w => buffer w (some 0)) = some [0, 0, 0, 0, 0, 0, 0, 0] := by
  decide

/-- C6 as amended: for a live handle `h` naming segment `s` and a size `n`
above `s.segsz` but within the pages mapped for the segment, the read does not
fail: it returns a new array of length `n` whose byte `i` is byte `i` of the
mapped pages, the bytes of the segment followed by the bytes after them. -/
theorem read_beyond_size_within_pages (w : World) (h n : Int) (s : Segment)
    (hl : LiveSeg w h s) (hm : (s.segsz : Int) < n) (hn : n ≤ mappedLen s.segsz) :
    ∃ arr w', readSharedMemory w h n = .ret (some w.heap.length) w' ∧
      w'.heap = w.heap ++ [arr] ∧ (arr.length : Int) = n ∧
      ∀ i : Nat, (i : Int) < n → arr[i]? = some (s.mem i) := by
  refine ⟨(List.range n.toNat).map s.mem, _,
    read_within w h n s (attachable_of_live hl) (by omega) (by omega), rfl, ?_, ?_⟩
  · simp
    omega
  · intro i hi
    exact range_map_getElem? s.mem n.toNat i (by omega)

/-- Witness of C6 as amended: eight bytes read of a four-byte segment. -/
theorem read_beyond_size_within_pages_witness :
    LiveSeg (World.single (filledSeg 0 4 7)) 0 (filledSeg 0 4 7) ∧
    ((filledSeg 0 4 7).segsz : Int) < 8 ∧ (8 : Int) ≤ mappedLen (filledSeg 0 4 7).segsz ∧
    ∃ arr w', readSharedMemory (World.single (filledSeg 0 4 7)) 0 8
        = .ret (some (World.single (filledSeg 0 4 7)).heap.length) w' ∧
      w'.heap = (World.single (filledSeg 0 4 7)).heap ++ [arr] ∧ (arr.length : Int) = 8 ∧
      ∀ i : Nat, (i : Int) < 8 → arr[i]? = some ((filledSeg 0 4 7).mem i) :=
  ⟨⟨by decide, rfl, rfl, rfl⟩, by decide, by decide,
    read_beyond_size_within_pages (World.single (filledSeg 0 4 7)) 0 8 (filledSeg 0 4 7)
      ⟨by decide, rfl, rfl, rfl⟩ (by decide) (by decide)⟩

/-- C8: on a consistent world, whenever `readSharedMemory` returns, the segment
table (the live segments, their sizes and their contents) and the attachments
are what they were before the call, and the one attach the call issued was
read-only; and the same read issued again returns too, with a buffer equal to
the first, which it leaves as it was. -/
theorem read_changes_no_segment (w : World) (h n : Int) (r : Option Nat) (w' : World)
    (hc : Consistent w) (hr : readSharedMemory w h n = .ret r w') :
    w'.segs = w.segs ∧ w'.maps = w.maps ∧
    (∃ rest, w'.calls = w.calls ++ Call.shmat h NULL SHM_RDONLY :: rest ∧
      ∀ id a f, Call.shmat id a f ∉ rest) ∧
    ∃ r2 w2, readSharedMemory w' h n = .ret r2 w2 ∧ w2.segs = w.segs ∧
      buffer w2 r2 = buffer w' r ∧ buffer w2 r = buffer w' r := by
  have hseg := afterRead_consistent hc h
  cases hA : attachable w.segs h with
  | none =>
    obtain ⟨e, he⟩ := read_fail w h n hA
    rw [he] at hr
    simp only [Outcome.ret.injEq] at hr
    obtain ⟨rfl, rfl⟩ := hr
    obtain ⟨e2, he2⟩ := read_fail { w with
      calls := w.calls ++ [Call.shmat h NULL SHM_RDONLY], errno := e } h n hA
    exact ⟨rfl, rfl, ⟨[], rfl, by simp⟩, none, _, he2, rfl, rfl, rfl⟩
  | some s =>
    by_cases hn : n < 0
    · rw [read_neg w h n s hA hn, hseg] at hr
      simp only [Outcome.ret.injEq] at hr
      obtain ⟨rfl, rfl⟩ := hr
      refine ⟨rfl, rfl, ⟨_, rfl, by simp⟩, none, _, read_neg _ h n s hA hn, ?_, rfl, rfl⟩
      exact hseg
    · rw [read_copy w h n s hA (by omega), hseg] at hr
      cases hb : readBytes w.segs (readMapping w.maps h s :: w.maps) (freshAddr w.maps) n.toNat with
      | none => simp [hb] at hr
      | some bs =>
        simp only [hb, Outcome.ret.injEq] at hr
        obtain ⟨rfl, rfl⟩ := hr
        have h2 := read_copy { w with
          heap := w.heap ++ [bs]
          calls := w.calls ++ [Call.shmat h NULL SHM_RDONLY, Call.NewByteArray n,
            Call.SetByteArrayRegion (some w.heap.length) 0 n (freshAddr w.maps),
            Call.shmdt (freshAddr w.maps)] } h n s hA (by omega)
        simp only [hb, hseg] at h2
        refine ⟨rfl, rfl, ⟨_, rfl, by simp⟩, _, _, h2, rfl, ?_, ?_⟩
        · simp only [buffer, Option.bind, List.append_assoc, List.singleton_append,
            List.length_append, List.length_singleton, getElem?_append_length,
            getElem?_append_length_succ]
        · simp only [buffer, Option.bind, List.append_assoc, List.singleton_append,
            getElem?_append_length]

/-- Witness of C8: two bytes of a four-byte segment, read once and again. -/
theorem read_changes_no_segment_witness :
    Consistent (World.single (filledSeg 0 4 7)) ∧
    ∃ r w', readSharedMemory (World.single (filledSeg 0 4 7)) 0 2 = .ret r w' ∧
      (w'.segs = (World.single (filledSeg 0 4 7)).segs ∧
        w'.maps = (World.single (filledSeg 0 4 7)).maps ∧
        (∃ rest, w'.calls = (World.single (filledSeg 0 4 7)).calls
            ++ Call.shmat 0 NULL SHM_RDONLY :: rest ∧
          ∀ id a f, Call.shmat id a f ∉ rest) ∧
        ∃ r2 w2, readSharedMemory w' 0 2 = .ret r2 w2 ∧
          w2.segs = (World.single (filledSeg 0 4 7)).segs ∧
          buffer w2 r2 = buffer w' r ∧ buffer w2 r = buffer w' r) :=
  ⟨⟨by decide, by intro s hs hd; simp [World.single, filledSeg] at hs; subst hs; cases hd⟩,
    _, _, read_within (World.single (filledSeg 0 4 7)) 0 2 (filledSeg 0 4 7) rfl (by decide)
      (by decide),
    read_changes_no_segment _ 0 2 _ _
      ⟨by decide, by intro s hs hd; simp [World.single, filledSeg] at hs; subst hs; cases hd⟩
      (read_within (World.single (filledSeg 0 4 7)) 0 2 (filledSeg 0 4 7) rfl (by decide)
        (by decide))⟩

/-- C10: for a live handle and a size for which `NewByteArray` gives `NULL`
(every negative size does), the read does not return early: it issues `shmat`,
`NewByteArray`, `SetByteArrayRegion` on the null array with that size, and
`shmdt` of the attached address, then returns `NULL` with the attachments as
before.  And a read that returns gives `NULL` exactly when the attach failed
or the array was not created. -/
theorem read_null_without_early_return (w : World) (h n : Int) (s : Segment)
    (hl : LiveSeg w h s) (hf : (NewByteArray (shmat w h NULL SHM_RDONLY).2 n).1 = none) :
    (∃ w', readSharedMemory w h n = .ret none w' ∧
      w'.calls = w.calls ++ [Call.shmat h NULL SHM_RDONLY, Call.NewByteArray n,
        Call.SetByteArrayRegion none 0 n (shmat w h NULL SHM_RDONLY).1,
        Call.shmdt (shmat w h NULL SHM_RDONLY).1] ∧
      (shmat w h NULL SHM_RDONLY).1 ≠ -1 ∧ w'.maps = w.maps) ∧
    (∀ (w0 : World) (k : Int), k < 0 → (NewByteArray w0 k).1 = none) ∧
    (∀ (w0 : World) (h0 n0 : Int) (r : Option Nat) (w1 : World),
      readSharedMemory w0 h0 n0 = .ret r w1 →
      (r = none ↔ (shmat w0 h0 NULL SHM_RDONLY).1 = -1 ∨
        (NewByteArray (shmat w0 h0 NULL SHM_RDONLY).2 n0).1 = none)) := by
  refine ⟨?_, fun w0 k hk => (newByteArray_none w0 k).mpr hk, ?_⟩
  · have hA := attachable_of_live hl
    have hn : n < 0 := (newByteArray_none _ n).mp hf
    refine ⟨_, read_neg w h n s hA hn, ?_, ?_, rfl⟩
    · rw [shmat_ok w h s hA]
    · rw [shmat_ok w h s hA]
      exact freshAddr_ne w.maps
  · intro w0 h0 n0 r w1 hr
    rw [newByteArray_none]
    cases hA : attachable w0.segs h0 with
    | none =>
      obtain ⟨e, he⟩ := read_fail w0 h0 n0 hA
      obtain ⟨e2, he2⟩ := shmat_fail w0 h0 hA
      rw [he] at hr
      simp only [Outcome.ret.injEq] at hr
      rw [he2]
      simp [hr.1.symm]
    | some t =>
      rw [shmat_ok w0 h0 t hA]
      have hne := freshAddr_ne w0.maps
      by_cases hn : n0 < 0
      · rw [read_neg w0 h0 n0 t hA hn] at hr
        simp only [Outcome.ret.injEq] at hr
        simp [hr.1.symm, hn]
      · rw [read_copy w0 h0 n0 t hA (by omega)] at hr
        cases hb : readBytes w0.segs (readMapping w0.maps h0 t :: w0.maps) (freshAddr w0.maps)
            n0.toNat with
        | none => simp [hb] at hr
        | some bs =>
          simp only [hb, Outcome.ret.injEq] at hr
          simp [hr.1.symm, hn, hne]

/-- Witness of C10: a read of size -3 of a live four-byte segment. -/
theorem read_null_without_early_return_witness :
    (∃ w', readSharedMemory (World.single (filledSeg 0 4 7)) 0 (-3) = .ret none w' ∧
      w'.calls = (World.single (filledSeg 0 4 7)).calls ++ [Call.shmat 0 NULL SHM_RDONLY,
        Call.NewByteArray (-3),
        Call.SetByteArrayRegion none 0 (-3)
          (shmat (World.single (filledSeg 0 4 7)) 0 NULL SHM_RDONLY).1,
        Call.shmdt (shmat (World.single (filledSeg 0 4 7)) 0 NULL SHM_RDONLY).1] ∧
      (shmat (World.single (filledSeg 0 4 7)) 0 NULL SHM_RDONLY).1 ≠ -1 ∧
      w'.maps = (World.single (filledSeg 0 4 7)).maps) ∧
    (∀ (w0 : World) (k : Int), k < 0 → (NewByteArray w0 k).1 = none) ∧
    (∀ (w0 : World) (h0 n0 : Int) (r : Option Nat) (w1 : World),
      readSharedMemory w0 h0 n0 = .ret r w1 →
      (r = none ↔ (shmat w0 h0 NULL SHM_RDONLY).1 = -1 ∨
        (NewByteArray (shmat w0 h0 NULL SHM_RDONLY).2 n0).1 = none)) :=
  read_null_without_early_return (World.single (filledSeg 0 4 7)) 0 (-3) (filledSeg 0 4 7)
    ⟨by decide, rfl, rfl, rfl⟩ (by decide)

end Shm
